import Mathlib

/-!
Verification of the progpick brace-pattern core: the tokenizer
(src/tokens.rs), the pattern tree builder and the enumerator
(src/pattern.rs).  The Rust code is shallowly embedded: the tokenizer's
character loop becomes a structural recursion over the input character
list, the mutable pattern tree becomes a nested inductive type carrying
each switch's cursor, and the mutating methods become state-passing
functions.  usize arithmetic in count() is modelled as Nat arithmetic
reduced modulo 2 to the 64 at every operation (release-build wraparound
semantics); the u8 nesting counter of the tokenizer is modelled modulo
256.  Rust panics (unwrap on None, out-of-bounds indexing) are modelled
by returning none.
-/

namespace Progpick

/-- Tokens produced by the tokenizer, mirroring enum Token in
src/tokens.rs: Chunk, SwitchOpen, SwitchClose, SwitchNext. -/
inductive Token where
  | chunk (s : String)
  | switchOpen
  | switchClose
  | switchNext
deriving DecidableEq, Repr

/-- Typed parse failures; one constructor per distinct bail message in
src/tokens.rs.  Note the three range checks (start bound not a single
byte, end bound not a single byte, range not immediately closed by the
closing brace) share one message in the source, hence one constructor. -/
inductive ParseErr where
  | unmatchedCloseBrace
  | rangeSingleAscii
  | unexpectedEndRange
  | unexpectedEndEscape
  | rangeNotAscending
  | unmatchedOpenBrace
deriving DecidableEq, Repr

deriving instance DecidableEq for Except

/-- Helper for the flush-pending-literal steps of the tokenizer: push
the buffer as a Chunk token only when it is non-empty. -/
def flushChunk (x : String) (acc : List Token) : List Token :=
  if x.isEmpty then acc else acc ++ [Token.chunk x]

/-- Range expansion loop of src/tokens.rs lines 108-113, recursing on
the number of characters still to emit after the current one: one Chunk
per character code, with SwitchNext between consecutive ones. -/
def rangeToksAux : Nat → Nat → List Token
  | 0, a => [Token.chunk (String.mk [Char.ofNat a])]
  | n + 1, a => Token.chunk (String.mk [Char.ofNat a]) :: Token.switchNext :: rangeToksAux n (a + 1)

/-- Range expansion from character code a up to b inclusive (the
tokenizer only calls this with a < b). -/
def rangeToks (a b : Nat) : List Token :=
  rangeToksAux (b - a) a

/-- The character loop of tokens::parse.  Arguments: remaining input,
escape-pending flag, nesting depth (the u8 in_switch, kept below 256 by
wrapping on increment), pending literal buffer, tokens so far. -/
def parseLoop : List Char → Bool → Nat → String → List Token → Except ParseErr (List Token)
  | [], _, d, x, acc =>
    if d > 0 then Except.error ParseErr.unmatchedOpenBrace
    else Except.ok (flushChunk x acc)
  | c :: rest, true, d, x, acc => parseLoop rest false d (x.push c) acc
  | c :: rest, false, d, x, acc =>
    if c = '\x7b' then
      parseLoop rest false ((d + 1) % 256) ("") (flushChunk x acc ++ [Token.switchOpen])
    else if c = '\x7d' then
      if d = 0 then Except.error ParseErr.unmatchedCloseBrace
      else
        match rest with
        | ',' :: rest2 =>
          parseLoop rest2 false (d - 1) ("")
            (flushChunk x acc ++ [Token.switchClose, Token.switchNext] ++
              (if rest2.head? = some '\x7d' then [Token.chunk ("")] else []))
        | other =>
          parseLoop other false (d - 1) ("") (flushChunk x acc ++ [Token.switchClose])
    else if c = ',' ∧ 0 < d then
      parseLoop rest false d ("")
        (acc ++ [Token.chunk x, Token.switchNext] ++
          (if rest.head? = some '\x7d' then [Token.chunk ("")] else []))
    else if c = '.' ∧ 0 < d then
      match rest with
      | '.' :: rest2 =>
        match x.data with
        | [s0] =>
          if s0.utf8Size = 1 then
            match rest2 with
            | [] => Except.error ParseErr.unexpectedEndRange
            | '\\' :: rest3 =>
              match rest3 with
              | [] => Except.error ParseErr.unexpectedEndEscape
              | e1 :: rest4 =>
                if e1.utf8Size ≠ 1 then Except.error ParseErr.rangeSingleAscii
                else if rest4.head? ≠ some '\x7d' then Except.error ParseErr.rangeSingleAscii
                else if e1.toNat ≤ s0.toNat then Except.error ParseErr.rangeNotAscending
                else parseLoop rest4 false d ("") (acc ++ rangeToks s0.toNat e1.toNat)
            | e0 :: rest3 =>
              if e0.utf8Size ≠ 1 then Except.error ParseErr.rangeSingleAscii
              else if rest3.head? ≠ some '\x7d' then Except.error ParseErr.rangeSingleAscii
              else if e0.toNat ≤ s0.toNat then Except.error ParseErr.rangeNotAscending
              else parseLoop rest3 false d ("") (acc ++ rangeToks s0.toNat e0.toNat)
          else Except.error ParseErr.rangeSingleAscii
        | _ => Except.error ParseErr.rangeSingleAscii
      | other => parseLoop other false d (x.push '.') acc
    else if c = '\\' then
      parseLoop rest true d x acc
    else
      parseLoop rest false d (x.push c) acc

/-- tokens::parse, src/tokens.rs lines 13-136: tokenize a whole input
string starting from empty state. -/
def parseTokens (s : String) : Except ParseErr (List Token) :=
  parseLoop s.data false 0 ("") []

/-- Pattern tree node, mirroring enum Fragment in src/pattern.rs: a
literal chunk, or a switch holding its options together with its
runtime cursor ctr (the build-time write_cursor is kept in the builder
state below, not here, since it is dead after construction). -/
inductive Fragment where
  | chunk (s : String)
  | switch (options : List (List Fragment)) (ctr : Nat)

/-- The root Pattern struct of src/pattern.rs: top-level fragments plus
the first and done flags (first is written but never read). -/
structure Pattern where
  fragments : List Fragment
  first : Bool
  done : Bool

/-! Rendering: Pattern::next's output loop and Switch::next.  The Rust
code appends to a shared out buffer; here each piece returns the text
it appends, concatenated in the same order.  A switch whose cursor is
out of bounds (in particular a switch with zero options) appends
nothing, exactly as options.get_mut(ctr) returning None does. -/

mutual
def renderFrag : Fragment → String
  | .chunk s => s
  | .switch os c => renderOpts os c
def renderOpts : List (List Fragment) → Nat → String
  | [], _ => ""
  | o :: _, 0 => renderSeq o
  | _ :: os, c + 1 => renderOpts os c
def renderSeq : List Fragment → String
  | [] => ""
  | f :: fs => renderFrag f ++ renderSeq fs
end

/-! Advancing: Pattern::bump and Switch::bump.  Each function returns
the updated tree and the carry flag (true when the sub-tree wrapped
around).  bumpOpts walks to the cursor's option and bumps inside it,
leaving the other options untouched; when the cursor is out of bounds
(zero options) it carries immediately, like the skipped loop in Rust. -/

mutual
def bumpFrag : Fragment → Fragment × Bool
  | .chunk s => (.chunk s, true)
  | .switch os c =>
    match bumpOpts os c with
    | (os', true) =>
      if c + 1 ≥ os'.length then (.switch os' 0, true) else (.switch os' (c + 1), false)
    | (os', false) => (.switch os' c, false)
def bumpOpts : List (List Fragment) → Nat → List (List Fragment) × Bool
  | [], _ => ([], true)
  | o :: os, 0 =>
    match bumpSeq o with
    | (o', b) => (o' :: os, b)
  | o :: os, c + 1 =>
    match bumpOpts os c with
    | (os', b) => (o :: os', b)
def bumpSeq : List Fragment → List Fragment × Bool
  | [] => ([], true)
  | f :: fs =>
    match bumpFrag f with
    | (f', true) =>
      match bumpSeq fs with
      | (fs', b) => (f' :: fs', b)
    | (f', false) => (f' :: fs, false)
end

/-- Pattern::bump, src/pattern.rs lines 44-58. -/
def Pattern.bump (p : Pattern) : Pattern × Bool :=
  match bumpSeq p.fragments with
  | (fs', carry) => (⟨fs', p.first, p.done⟩, carry)

/-- Pattern::next, src/pattern.rs lines 14-30: if done, yield nothing;
otherwise render the current combination, then advance and record the
carry in done. -/
def Pattern.next (p : Pattern) : Option String × Pattern :=
  if p.done then (none, p)
  else
    match bumpSeq p.fragments with
    | (fs', carry) => (some (renderSeq p.fragments), ⟨fs', p.first, carry⟩)

/-- Drive Pattern::next repeatedly (the next_owned/while-let drain used
by the tests), collecting the yielded strings; fuel bounds the number
of calls. -/
def drainF : Nat → Pattern → List String
  | 0, _ => []
  | n + 1, p =>
    match p.next with
    | (none, _) => []
    | (some s, p') => s :: drainF n p'

/-! Counting.  seqCount/optsCount/fragCount give the mathematical value
of the count() formula (product over a fragment sequence, sum of
products over a switch's options).  The U variants mirror the actual
usize accumulator loops of Pattern::count and Switch::count, reducing
modulo 2^64 at every multiplication and addition as release-build
wrapping arithmetic does. -/

mutual
def fragCount : Fragment → Nat
  | .chunk _ => 1
  | .switch os _ => optsCount os
def optsCount : List (List Fragment) → Nat
  | [] => 0
  | o :: os => seqCount o + optsCount os
def seqCount : List Fragment → Nat
  | [] => 1
  | f :: fs => fragCount f * seqCount fs
end

/-- Width of usize (the target is 64-bit). -/
def usizeW : Nat := 2 ^ 64

mutual
def fragCountU : Fragment → Nat
  | .chunk _ => 1
  | .switch os _ => optsCountU os 0
def optsCountU : List (List Fragment) → Nat → Nat
  | [], sum => sum
  | o :: os, sum => optsCountU os ((sum + seqCountU o 1) % usizeW)
def seqCountU : List Fragment → Nat → Nat
  | [], sum => sum
  | f :: fs, sum => seqCountU fs ((sum * fragCountU f) % usizeW)
end

/-- Pattern::count, src/pattern.rs lines 60-72 (usize semantics). -/
def Pattern.count (p : Pattern) : Nat :=
  seqCountU p.fragments 1

/-! The builder: impl FromStr for Pattern, src/pattern.rs lines 85-128.
A switch under construction is its options plus the write cursor;
Switch::push extends options by one empty option when the write cursor
is one past the end, then appends to the option at the write cursor.
Indexing out of bounds and the two unwraps on an empty switch stack are
Rust panics, modelled by none. -/

structure BSwitch where
  options : List (List Fragment)
  wc : Nat

/-- Switch::push, src/pattern.rs lines 153-161; none models the panic
when the write cursor is still out of bounds after the conditional
extension. -/
def bpush (sw : BSwitch) (f : Fragment) : Option BSwitch :=
  let os := if sw.wc + 1 > sw.options.length then sw.options ++ [[]] else sw.options
  match os.get? sw.wc with
  | some opt => some ⟨os.set sw.wc (opt ++ [f]), sw.wc⟩
  | none => none

/-- The token loop of from_str, threading the stack of open switch
builders and the top-level fragments; none models the panics (unwrap on
an empty stack for SwitchClose/SwitchNext, out-of-bounds push). -/
def build : List Token → List BSwitch → List Fragment → Option (List Fragment)
  | [], _, frags => some frags
  | Token.chunk s :: ts, sw :: stack, frags =>
    match bpush sw (.chunk s) with
    | some sw' => build ts (sw' :: stack) frags
    | none => none
  | Token.chunk s :: ts, [], frags => build ts [] (frags ++ [.chunk s])
  | Token.switchOpen :: ts, stack, frags => build ts (⟨[], 0⟩ :: stack) frags
  | Token.switchClose :: ts, sw :: sw2 :: stack, frags =>
    match bpush sw2 (.switch sw.options 0) with
    | some sw2' => build ts (sw2' :: stack) frags
    | none => none
  | Token.switchClose :: ts, [sw], frags => build ts [] (frags ++ [.switch sw.options 0])
  | Token.switchClose :: _, [], _ => none
  | Token.switchNext :: ts, sw :: stack, frags => build ts (⟨sw.options, sw.wc + 1⟩ :: stack) frags
  | Token.switchNext :: _, [], _ => none

/-- Pattern::from_str: tokenize, then build.  Except.error is the typed
parse failure; Except.ok none is a panic in the builder; Except.ok
(some p) is a successfully built pattern (first = true, done = false,
as in From for Pattern). -/
def fromStr (s : String) : Except ParseErr (Option Pattern) :=
  match parseTokens s with
  | Except.error e => Except.error e
  | Except.ok ts =>
    Except.ok ((build ts [] []).map fun fs => ⟨fs, true, false⟩)

/-! Specification-side machinery for the odometer-correctness proof.
None of the following functions exist in the source; they classify and
measure enumerator states of the source-derived tree type above. -/

/-! Every switch in the tree has at least one option (rules out the
degenerate empty-group patterns for which count() and the drain
disagree). -/
mutual
def fragNE : Fragment → Bool
  | .chunk _ => true
  | .switch os _ => decide (0 < os.length) && optsNE os
def optsNE : List (List Fragment) → Bool
  | [] => true
  | o :: os => seqNE o && optsNE os
def seqNE : List Fragment → Bool
  | [] => true
  | f :: fs => fragNE f && seqNE fs
end

/-! Every switch cursor in the tree is 0: the state a freshly built
pattern is in, and the state a subtree returns to after carrying out. -/
mutual
def fragInit : Fragment → Bool
  | .chunk _ => true
  | .switch os c => (c == 0) && optsInit os
def optsInit : List (List Fragment) → Bool
  | [] => true
  | o :: os => seqInit o && optsInit os
def seqInit : List Fragment → Bool
  | [] => true
  | f :: fs => fragInit f && seqInit fs
end

/-! Well-formed in-flight enumerator state: every switch cursor is in
bounds, the currently selected option is recursively well-formed, and
all other options are in their initial state (they are either not yet
visited or have just carried out). -/
mutual
def fragValid : Fragment → Bool
  | .chunk _ => true
  | .switch os c => decide (c < os.length) && optsValidAt os c
def optsValidAt : List (List Fragment) → Nat → Bool
  | [], _ => true
  | o :: os, 0 => seqValid o && optsInit os
  | o :: os, c + 1 => seqInit o && optsValidAt os c
def seqValid : List Fragment → Bool
  | [] => true
  | f :: fs => fragValid f && seqValid fs
end

/-! Mixed-radix rank of the current state: how many combinations
precede the current one.  A fragment sequence reads its first fragment
as the fastest-cycling digit; a switch contributes the full counts of
the options before its cursor plus the rank within the selected
option. -/
mutual
def fragRank : Fragment → Nat
  | .chunk _ => 0
  | .switch os c => optsRank os c
def optsRank : List (List Fragment) → Nat → Nat
  | [], _ => 0
  | o :: _, 0 => seqRank o
  | o :: os, c + 1 => seqCount o + optsRank os c
def seqRank : List Fragment → Nat
  | [] => 0
  | f :: fs => fragRank f + fragCount f * seqRank fs
end

/-- Convenience used by tests below and by several claims: parse and
build a pattern from a source string, then drain it with the given
fuel; the empty list is returned when parsing or building fails. -/
def drainStr (s : String) (n : Nat) : List String :=
  match fromStr s with
  | Except.ok (some p) => drainF n p
  | _ => []

/-! Concrete patterns used by the claims. -/

/-- The pattern built from a single empty group. -/
def pEmptySwitch : Pattern := ⟨[Fragment.switch [] 0], true, false⟩

/-- Options x, y. -/
def optsXY : List (List Fragment) := [[Fragment.chunk ("x")], [Fragment.chunk ("y")]]

/-- Options a, b. -/
def optsAB : List (List Fragment) := [[Fragment.chunk ("a")], [Fragment.chunk ("b")]]

/-- The pattern built from the two chained groups x,y and a,b. -/
def pXYAB : Pattern := ⟨[Fragment.switch optsXY 0, Fragment.switch optsAB 0], true, false⟩

/-- The pattern built from one group with options x, y. -/
def pXY : Pattern := ⟨[Fragment.switch optsXY 0], true, false⟩

/-- The pattern built from the source string abc followed by the group
x,y,z. -/
def pABCXYZ : Pattern :=
  ⟨[Fragment.chunk ("abc"),
    Fragment.switch [[Fragment.chunk ("x")], [Fragment.chunk ("y")], [Fragment.chunk ("z")]] 0],
    true, false⟩

/-- The pattern built from two chained x,y,z groups. -/
def pXYZXYZ : Pattern :=
  ⟨[Fragment.switch [[Fragment.chunk ("x")], [Fragment.chunk ("y")], [Fragment.chunk ("z")]] 0,
    Fragment.switch [[Fragment.chunk ("x")], [Fragment.chunk ("y")], [Fragment.chunk ("z")]] 0],
    true, false⟩

/-- The cursor of a fragment (0 for chunks); used to observe state
changes without needing decidable equality of whole trees. -/
def fragCtr : Fragment → Nat
  | .chunk _ => 0
  | .switch _ c => c

/-- Source string of 64 chained binary groups. -/
def s64 : String := String.mk (List.flatten (List.replicate 64 ['\x7b', '0', ',', '1', '\x7d']))

/-- The pattern built from s64: 64 two-option switches. -/
def p64 : Pattern :=
  ⟨List.replicate 64 (Fragment.switch [[Fragment.chunk ("0")], [Fragment.chunk ("1")]] 0),
    true, false⟩

/-! Sanity checks mirroring the unit tests of src/tokens.rs and
src/pattern.rs, to validate the embedding on the repository's own
expected values. -/

example : parseTokens ("abc") = Except.ok [Token.chunk ("abc")] := rfl

example : parseTokens ("") = Except.ok [] := rfl

example :
    parseTokens ("abc\x7bx,y,z\x7d") =
      Except.ok
        [Token.chunk ("abc"), Token.switchOpen, Token.chunk ("x"), Token.switchNext,
          Token.chunk ("y"), Token.switchNext, Token.chunk ("z"), Token.switchClose] := rfl

example :
    parseTokens ("abc\x7bx,\x7by,z\x7d\x7d") =
      Except.ok
        [Token.chunk ("abc"), Token.switchOpen, Token.chunk ("x"), Token.switchNext,
          Token.switchOpen, Token.chunk ("y"), Token.switchNext, Token.chunk ("z"),
          Token.switchClose, Token.switchClose] := rfl

example :
    parseTokens ("\x7b\x7ba..b\x7d,\x7dx") =
      Except.ok
        [Token.switchOpen, Token.switchOpen, Token.chunk ("a"), Token.switchNext,
          Token.chunk ("b"), Token.switchClose, Token.switchNext, Token.chunk (""),
          Token.switchClose, Token.chunk ("x")] := rfl

example :
    parseTokens ("abc\x7bx,,y\x7d") =
      Except.ok
        [Token.chunk ("abc"), Token.switchOpen, Token.chunk ("x"), Token.switchNext,
          Token.chunk (""), Token.switchNext, Token.chunk ("y"), Token.switchClose] := rfl

example : (parseTokens ("\x7b..\x7d")).isOk = false := rfl
example : (parseTokens ("\x7b0..\x7d")).isOk = false := rfl
example : (parseTokens ("\x7b..0\x7d")).isOk = false := rfl
example : (parseTokens ("\x7b00..\x7d")).isOk = false := rfl
example : (parseTokens ("\x7b00..00\x7d")).isOk = false := rfl
example : (parseTokens ("\x7b.")).isOk = false := rfl
example : (parseTokens ("\x7b..")).isOk = false := rfl
example : (parseTokens ("\x7b...\x7d")).isOk = false := rfl
example : (parseTokens ("\x7ba...\x7d")).isOk = false := rfl

example :
    fromStr ("abc\x7bx,y,z\x7d") =
      Except.ok (some ⟨[Fragment.chunk ("abc"),
        Fragment.switch [[Fragment.chunk ("x")], [Fragment.chunk ("y")],
          [Fragment.chunk ("z")]] 0], true, false⟩) := rfl

example :
    fromStr ("a\x7bb,c\x7bx,y\x7d,d\x7d") =
      Except.ok (some ⟨[Fragment.chunk ("a"),
        Fragment.switch [[Fragment.chunk ("b")],
          [Fragment.chunk ("c"), Fragment.switch [[Fragment.chunk ("x")],
            [Fragment.chunk ("y")]] 0],
          [Fragment.chunk ("d")]] 0], true, false⟩) := rfl

example :
    drainF 9 ⟨[Fragment.chunk ("a"),
        Fragment.switch [[Fragment.chunk ("b")],
          [Fragment.chunk ("c"), Fragment.switch [[Fragment.chunk ("x")],
            [Fragment.chunk ("y")]] 0],
          [Fragment.chunk ("d")]] 0], true, false⟩ =
      [("ab"), ("acx"), ("acy"), ("ad")] := by decide

example :
    fromStr ("\x7b\x7b\x7ba,b,c\x7d,x\x7d,y\x7d") =
      Except.ok (some ⟨[Fragment.switch [
        [Fragment.switch [
          [Fragment.switch [[Fragment.chunk ("a")], [Fragment.chunk ("b")],
            [Fragment.chunk ("c")]] 0],
          [Fragment.chunk ("x")]] 0],
        [Fragment.chunk ("y")]] 0], true, false⟩) := rfl

example :
    drainF 9 ⟨[Fragment.switch [
        [Fragment.switch [
          [Fragment.switch [[Fragment.chunk ("a")], [Fragment.chunk ("b")],
            [Fragment.chunk ("c")]] 0],
          [Fragment.chunk ("x")]] 0],
        [Fragment.chunk ("y")]] 0], true, false⟩ =
      [("a"), ("b"), ("c"), ("x"), ("y")] := by decide

example :
    fromStr ("\x7b0..9\x7d") =
      Except.ok (some ⟨[Fragment.switch [[Fragment.chunk ("0")], [Fragment.chunk ("1")],
        [Fragment.chunk ("2")], [Fragment.chunk ("3")], [Fragment.chunk ("4")],
        [Fragment.chunk ("5")], [Fragment.chunk ("6")], [Fragment.chunk ("7")],
        [Fragment.chunk ("8")], [Fragment.chunk ("9")]] 0], true, false⟩) := rfl

example :
    drainF 20 ⟨[Fragment.switch [[Fragment.chunk ("0")], [Fragment.chunk ("1")],
        [Fragment.chunk ("2")], [Fragment.chunk ("3")], [Fragment.chunk ("4")],
        [Fragment.chunk ("5")], [Fragment.chunk ("6")], [Fragment.chunk ("7")],
        [Fragment.chunk ("8")], [Fragment.chunk ("9")]] 0], true, false⟩ =
      [("0"), ("1"), ("2"), ("3"), ("4"), ("5"), ("6"), ("7"), ("8"), ("9")] := by decide

example :
    fromStr ("\x7b\x7ba..b\x7d,\x7dx") =
      Except.ok (some ⟨[Fragment.switch [
        [Fragment.switch [[Fragment.chunk ("a")], [Fragment.chunk ("b")]] 0],
        [Fragment.chunk ("")]] 0, Fragment.chunk ("x")], true, false⟩) := rfl

example :
    drainF 5 ⟨[Fragment.switch [
        [Fragment.switch [[Fragment.chunk ("a")], [Fragment.chunk ("b")]] 0],
        [Fragment.chunk ("")]] 0, Fragment.chunk ("x")], true, false⟩ =
      [("ax"), ("bx"), ("x")] := by decide

example :
    Pattern.count ⟨[Fragment.switch [[Fragment.chunk ("a")]] 0,
      Fragment.switch [[Fragment.chunk ("a")]] 0,
      Fragment.switch [[Fragment.chunk ("a")]] 0], true, false⟩ = 1 := by decide

/-! Basic facts about the state predicates and the rank measure. -/

mutual
theorem fragCount_pos : ∀ f, fragNE f = true → 1 ≤ fragCount f
  | .chunk _, _ => le_refl 1
  | .switch os c, h => by
    have h' : 0 < os.length ∧ optsNE os = true := by simpa [fragNE] using h
    have := optsCount_pos os h'.1 h'.2
    simpa [fragCount] using this
theorem optsCount_pos : ∀ os, 0 < os.length → optsNE os = true → 1 ≤ optsCount os
  | o :: os, _, h => by
    have h' : seqNE o = true ∧ optsNE os = true := by simpa [optsNE] using h
    have := seqCount_pos o h'.1
    simp only [optsCount]
    omega
theorem seqCount_pos : ∀ fs, seqNE fs = true → 1 ≤ seqCount fs
  | [], _ => le_refl 1
  | f :: fs, h => by
    have h' : fragNE f = true ∧ seqNE fs = true := by simpa [seqNE] using h
    have h1 := fragCount_pos f h'.1
    have h2 := seqCount_pos fs h'.2
    calc 1 = 1 * 1 := rfl
    _ ≤ fragCount f * seqCount fs := Nat.mul_le_mul h1 h2
    _ = seqCount (f :: fs) := by simp [seqCount]
end

mutual
theorem fragInit_rank : ∀ f, fragInit f = true → fragRank f = 0
  | .chunk _, _ => rfl
  | .switch os c, h => by
    have h' : c = 0 ∧ optsInit os = true := by simpa [fragInit] using h
    obtain ⟨hc, ho⟩ := h'
    subst hc
    show optsRank os 0 = 0
    match os, ho with
    | [], _ => rfl
    | o :: os, ho =>
      have h'' : seqInit o = true ∧ optsInit os = true := by simpa [optsInit] using ho
      have := seqInit_rank o h''.1
      simpa [optsRank] using this
theorem seqInit_rank : ∀ fs, seqInit fs = true → seqRank fs = 0
  | [], _ => rfl
  | f :: fs, h => by
    have h' : fragInit f = true ∧ seqInit fs = true := by simpa [seqInit] using h
    have h1 := fragInit_rank f h'.1
    have h2 := seqInit_rank fs h'.2
    simp [seqRank, h1, h2]
end

mutual
theorem fragInit_valid : ∀ f, fragInit f = true → fragNE f = true → fragValid f = true
  | .chunk _, _, _ => rfl
  | .switch os c, h, hne => by
    have h' : c = 0 ∧ optsInit os = true := by simpa [fragInit] using h
    have hne' : 0 < os.length ∧ optsNE os = true := by simpa [fragNE] using hne
    obtain ⟨hc, ho⟩ := h'
    subst hc
    match os, ho, hne' with
    | o :: os, ho, hne' =>
      have h'' : seqInit o = true ∧ optsInit os = true := by simpa [optsInit] using ho
      have hne'' : seqNE o = true ∧ optsNE os = true := by simpa [optsNE] using hne'.2
      have := seqInit_valid o h''.1 hne''.1
      simp [fragValid, optsValidAt, this, h''.2]
theorem seqInit_valid : ∀ fs, seqInit fs = true → seqNE fs = true → seqValid fs = true
  | [], _, _ => rfl
  | f :: fs, h, hne => by
    have h' : fragInit f = true ∧ seqInit fs = true := by simpa [seqInit] using h
    have hne' : fragNE f = true ∧ seqNE fs = true := by simpa [seqNE] using hne
    have h1 := fragInit_valid f h'.1 hne'.1
    have h2 := seqInit_valid fs h'.2 hne'.2
    simp [seqValid, h1, h2]
end

/-- An all-initial option list is a well-formed current state for any
in-bounds cursor. -/
theorem optsInit_validAt : ∀ os c, optsInit os = true → optsNE os = true →
    c < os.length → optsValidAt os c = true
  | o :: os, 0, h, hne, _ => by
    have h' : seqInit o = true ∧ optsInit os = true := by simpa [optsInit] using h
    have hne' : seqNE o = true ∧ optsNE os = true := by simpa [optsNE] using hne
    simp [optsValidAt, seqInit_valid o h'.1 hne'.1, h'.2]
  | o :: os, c + 1, h, hne, hlt => by
    have h' : seqInit o = true ∧ optsInit os = true := by simpa [optsInit] using h
    have hne' : seqNE o = true ∧ optsNE os = true := by simpa [optsNE] using hne
    have := optsInit_validAt os c h'.2 hne'.2 (by simpa using Nat.lt_of_succ_lt_succ hlt)
    simp [optsValidAt, h'.1, this]

/-- Rank of an all-initial option list at cursor 0 is 0. -/
theorem optsInit_rank0 : ∀ os, optsInit os = true → optsRank os 0 = 0
  | [], _ => rfl
  | o :: os, h => by
    have h' : seqInit o = true ∧ optsInit os = true := by simpa [optsInit] using h
    simpa [optsRank] using seqInit_rank o h'.1

/-- Rank at a cursor equal to the length is the full option count. -/
theorem optsRank_len : ∀ os, optsRank os os.length = optsCount os
  | [] => rfl
  | o :: os => by
    have := optsRank_len os
    simp [optsRank, optsCount, List.length, this]

mutual
theorem fragRank_lt : ∀ f, fragNE f = true → fragValid f = true → fragRank f < fragCount f
  | .chunk _, _, _ => Nat.zero_lt_one
  | .switch os c, hne, hv => by
    have hne' : 0 < os.length ∧ optsNE os = true := by simpa [fragNE] using hne
    have hv' : c < os.length ∧ optsValidAt os c = true := by simpa [fragValid] using hv
    have := optsRank_lt os c hne'.2 hv'.1 hv'.2
    simpa [fragRank, fragCount] using this
theorem optsRank_lt : ∀ os c, optsNE os = true → c < os.length → optsValidAt os c = true →
    optsRank os c < optsCount os
  | o :: os, 0, hne, _, hv => by
    have hne' : seqNE o = true ∧ optsNE os = true := by simpa [optsNE] using hne
    have hv' : seqValid o = true ∧ optsInit os = true := by simpa [optsValidAt] using hv
    have := seqRank_lt o hne'.1 hv'.1
    simp only [optsRank, optsCount]
    omega
  | o :: os, c + 1, hne, hlt, hv => by
    have hne' : seqNE o = true ∧ optsNE os = true := by simpa [optsNE] using hne
    have hv' : seqInit o = true ∧ optsValidAt os c = true := by simpa [optsValidAt] using hv
    have := optsRank_lt os c hne'.2 (by simpa using Nat.lt_of_succ_lt_succ hlt) hv'.2
    simp only [optsRank, optsCount]
    omega
theorem seqRank_lt : ∀ fs, seqNE fs = true → seqValid fs = true → seqRank fs < seqCount fs
  | [], _, _ => Nat.zero_lt_one
  | f :: fs, hne, hv => by
    have hne' : fragNE f = true ∧ seqNE fs = true := by simpa [seqNE] using hne
    have hv' : fragValid f = true ∧ seqValid fs = true := by simpa [seqValid] using hv
    have h1 := fragRank_lt f hne'.1 hv'.1
    have h2 := seqRank_lt fs hne'.2 hv'.2
    have h3 : fragRank f + fragCount f * seqRank fs + 1 ≤ fragCount f * seqCount fs := by
      calc fragRank f + fragCount f * seqRank fs + 1
          ≤ fragCount f + fragCount f * seqRank fs := by omega
        _ = fragCount f * (seqRank fs + 1) := by ring
        _ ≤ fragCount f * seqCount fs := Nat.mul_le_mul_left _ h2
    simp only [seqRank, seqCount]
    omega
end

/-! The bump specification: on a well-formed state in which every
switch has at least one option, advancing preserves the shape (counts
and non-emptiness), and either reports a carry, in which case the state
was the last combination (rank + 1 = count) and has wrapped to the
initial state, or it does not, in which case the new state is
well-formed with rank exactly one higher. -/

mutual
theorem bumpFrag_spec : ∀ f, fragNE f = true → fragValid f = true →
    fragCount (bumpFrag f).1 = fragCount f ∧
    fragNE (bumpFrag f).1 = true ∧
    ((bumpFrag f).2 = true → fragRank f + 1 = fragCount f ∧ fragInit (bumpFrag f).1 = true) ∧
    ((bumpFrag f).2 = false →
      fragValid (bumpFrag f).1 = true ∧ fragRank (bumpFrag f).1 = fragRank f + 1)
  | .chunk s, _, _ => by
    simp [bumpFrag, fragCount, fragNE, fragRank, fragInit]
  | .switch os c, hne, hv => by
    have hne' : 0 < os.length ∧ optsNE os = true := by simpa [fragNE] using hne
    have hv' : c < os.length ∧ optsValidAt os c = true := by simpa [fragValid] using hv
    obtain ⟨os', b, hr⟩ : ∃ os' b, bumpOpts os c = (os', b) := ⟨_, _, rfl⟩
    have hs := bumpOpts_spec os c hne'.2 hv'.1 hv'.2
    rw [hr] at hs
    dsimp only at hs
    obtain ⟨hlen, hcnt, hneo, hct, hcf⟩ := hs
    cases b with
    | false =>
      obtain ⟨hva, hrk⟩ := hcf rfl
      simp only [bumpFrag, hr]
      refine ⟨by simp [fragCount, hcnt], ?_, by simp, ?_⟩
      · simp only [fragNE]
        simp [hlen, hne'.1, hneo]
      · intro _
        constructor
        · simp only [fragValid]
          simp [hlen, hv'.1, hva]
        · simp [fragRank, hrk]
    | true =>
      obtain ⟨hrk, hini⟩ := hct rfl
      by_cases hge : c + 1 ≥ os'.length
      · have hc1 : c + 1 = os'.length := by omega
        simp only [bumpFrag, hr, if_pos hge]
        refine ⟨by simp [fragCount, hcnt], ?_, ?_, by simp⟩
        · simp only [fragNE]
          simp [hlen, hne'.1, hneo]
        · intro _
          constructor
          · have : optsRank os' (c + 1) = optsCount os' := by
              rw [hc1, optsRank_len]
            simp only [fragRank, fragCount]
            omega
          · simp [fragInit, hini]
      · simp only [bumpFrag, hr, if_neg hge]
        refine ⟨by simp [fragCount, hcnt], ?_, by simp, ?_⟩
        · simp only [fragNE]
          simp [hlen, hne'.1, hneo]
        · intro _
          constructor
          · have := optsInit_validAt os' (c + 1) hini hneo (by omega)
            simp only [fragValid]
            simp [this]
            omega
          · simp [fragRank, hrk]
theorem bumpOpts_spec : ∀ os c, optsNE os = true → c < os.length → optsValidAt os c = true →
    (bumpOpts os c).1.length = os.length ∧
    optsCount (bumpOpts os c).1 = optsCount os ∧
    optsNE (bumpOpts os c).1 = true ∧
    ((bumpOpts os c).2 = true →
      optsRank os c + 1 = optsRank (bumpOpts os c).1 (c + 1) ∧
      optsInit (bumpOpts os c).1 = true) ∧
    ((bumpOpts os c).2 = false →
      optsValidAt (bumpOpts os c).1 c = true ∧
      optsRank (bumpOpts os c).1 c = optsRank os c + 1)
  | o :: os, 0, hne, _, hv => by
    have hne' : seqNE o = true ∧ optsNE os = true := by simpa [optsNE] using hne
    have hv' : seqValid o = true ∧ optsInit os = true := by simpa [optsValidAt] using hv
    obtain ⟨o', b, hr⟩ : ∃ o' b, bumpSeq o = (o', b) := ⟨_, _, rfl⟩
    have hs := bumpSeq_spec o hne'.1 hv'.1
    rw [hr] at hs
    dsimp only at hs
    obtain ⟨hcnt, hneo, hct, hcf⟩ := hs
    simp only [bumpOpts, hr]
    refine ⟨by simp, by simp [optsCount, hcnt], by simp [optsNE, hneo, hne'.2], ?_, ?_⟩
    · intro hb
      subst hb
      obtain ⟨hrk, hini⟩ := hct rfl
      constructor
      · have h0 := optsInit_rank0 os hv'.2
        simp only [optsRank]
        omega
      · simp [optsInit, hini, hv'.2]
    · intro hb
      subst hb
      obtain ⟨hva, hrk⟩ := hcf rfl
      exact ⟨by simp [optsValidAt, hva, hv'.2], by simpa [optsRank] using hrk⟩
  | o :: os, c + 1, hne, hlt, hv => by
    have hne' : seqNE o = true ∧ optsNE os = true := by simpa [optsNE] using hne
    have hv' : seqInit o = true ∧ optsValidAt os c = true := by simpa [optsValidAt] using hv
    obtain ⟨os', b, hr⟩ : ∃ os' b, bumpOpts os c = (os', b) := ⟨_, _, rfl⟩
    have hs := bumpOpts_spec os c hne'.2 (by simpa using Nat.lt_of_succ_lt_succ hlt) hv'.2
    rw [hr] at hs
    dsimp only at hs
    obtain ⟨hlen, hcnt, hneo, hct, hcf⟩ := hs
    simp only [bumpOpts, hr]
    refine ⟨by simp [hlen], by simp [optsCount, hcnt], by simp [optsNE, hneo, hne'.1], ?_, ?_⟩
    · intro hb
      subst hb
      obtain ⟨hrk, hini⟩ := hct rfl
      constructor
      · simp only [optsRank]
        omega
      · simp [optsInit, hini, hv'.1]
    · intro hb
      subst hb
      obtain ⟨hva, hrk⟩ := hcf rfl
      constructor
      · simp [optsValidAt, hva, hv'.1]
      · simp only [optsRank]
        omega
theorem bumpSeq_spec : ∀ fs, seqNE fs = true → seqValid fs = true →
    seqCount (bumpSeq fs).1 = seqCount fs ∧
    seqNE (bumpSeq fs).1 = true ∧
    ((bumpSeq fs).2 = true → seqRank fs + 1 = seqCount fs ∧ seqInit (bumpSeq fs).1 = true) ∧
    ((bumpSeq fs).2 = false →
      seqValid (bumpSeq fs).1 = true ∧ seqRank (bumpSeq fs).1 = seqRank fs + 1)
  | [], _, _ => by
    simp [bumpSeq, seqRank, seqCount, seqInit, seqNE]
  | f :: fs, hne, hv => by
    have hne' : fragNE f = true ∧ seqNE fs = true := by simpa [seqNE] using hne
    have hv' : fragValid f = true ∧ seqValid fs = true := by simpa [seqValid] using hv
    obtain ⟨f', bf, hrf⟩ : ∃ f' bf, bumpFrag f = (f', bf) := ⟨_, _, rfl⟩
    have hsf := bumpFrag_spec f hne'.1 hv'.1
    rw [hrf] at hsf
    dsimp only at hsf
    obtain ⟨hfc, hfne, hfct, hfcf⟩ := hsf
    cases bf with
    | false =>
      obtain ⟨hfv, hfr⟩ := hfcf rfl
      simp only [bumpSeq, hrf]
      refine ⟨by simp [seqCount, hfc], by simp [seqNE, hfne, hne'.2], by simp, ?_⟩
      intro _
      refine ⟨by simp [seqValid, hfv, hv'.2], ?_⟩
      simp only [seqRank]
      rw [hfc, hfr]
      ring
    | true =>
      obtain ⟨hfr, hfi⟩ := hfct rfl
      obtain ⟨fs', bs, hrs⟩ : ∃ fs' bs, bumpSeq fs = (fs', bs) := ⟨_, _, rfl⟩
      have hss := bumpSeq_spec fs hne'.2 hv'.2
      rw [hrs] at hss
      dsimp only at hss
      obtain ⟨hsc, hsne, hsct, hscf⟩ := hss
      simp only [bumpSeq, hrf, hrs]
      refine ⟨by simp [seqCount, hfc, hsc], by simp [seqNE, hfne, hsne], ?_, ?_⟩
      · intro hb
        subst hb
        obtain ⟨hsr, hsi⟩ := hsct rfl
        refine ⟨?_, by simp [seqInit, hfi, hsi]⟩
        simp only [seqRank, seqCount]
        rw [← hfr, ← hsr]
        ring
      · intro hb
        subst hb
        obtain ⟨hsv, hsr⟩ := hscf rfl
        have hfv := fragInit_valid f' hfi hfne
        have hf0 := fragInit_rank f' hfi
        refine ⟨by simp [seqValid, hfv, hsv], ?_⟩
        simp only [seqRank]
        rw [hf0, hfc, hsr, ← hfr]
        ring
end

/-- A pattern whose done flag is set yields nothing. -/
theorem drainF_done : ∀ n p, p.done = true → drainF n p = []
  | 0, _, _ => rfl
  | n + 1, p, h => by
    simp [drainF, Pattern.next, h]

/-- Odometer correctness: from any well-formed all-switches-non-empty
state, draining with enough fuel yields exactly the number of
combinations that remain (total count minus current rank). -/
theorem drainF_len : ∀ n fs fst, seqNE fs = true → seqValid fs = true →
    seqCount fs - seqRank fs ≤ n →
    (drainF n ⟨fs, fst, false⟩).length = seqCount fs - seqRank fs
  | 0, fs, fst, hne, hv, hle => by
    have := seqRank_lt fs hne hv
    omega
  | n + 1, fs, fst, hne, hv, hle => by
    have hlt := seqRank_lt fs hne hv
    obtain ⟨fs', b, hb⟩ : ∃ fs' b, bumpSeq fs = (fs', b) := ⟨_, _, rfl⟩
    have hnext : Pattern.next ⟨fs, fst, false⟩ = (some (renderSeq fs), ⟨fs', fst, b⟩) := by
      simp [Pattern.next, hb]
    have hs := bumpSeq_spec fs hne hv
    rw [hb] at hs
    dsimp only at hs
    obtain ⟨hcnt, hneo, hct, hcf⟩ := hs
    have hstep : drainF (n + 1) ⟨fs, fst, false⟩ = renderSeq fs :: drainF n ⟨fs', fst, b⟩ := by
      simp [drainF, hnext]
    cases b with
    | true =>
      obtain ⟨hrk, _⟩ := hct rfl
      rw [hstep, drainF_done n ⟨fs', fst, true⟩ rfl]
      simp only [List.length]
      omega
    | false =>
      obtain ⟨hv', hrk⟩ := hcf rfl
      have hrec := drainF_len n fs' fst hneo hv' (by omega)
      rw [hstep]
      simp only [List.length, hrec]
      omega

/-! The usize accumulator loops of count() compute the mathematical
count reduced modulo 2^64. -/

theorem usizeW_pos : 0 < usizeW := by norm_num [usizeW]

theorem one_lt_usizeW : 1 < usizeW := by norm_num [usizeW]

mutual
theorem fragCountU_eq : ∀ f, fragCountU f = fragCount f % usizeW
  | .chunk _ => by
    simp [fragCountU, fragCount, Nat.mod_eq_of_lt one_lt_usizeW]
  | .switch os c => by
    have := optsCountU_eq os 0 usizeW_pos
    simpa [fragCountU, fragCount] using this
theorem optsCountU_eq : ∀ os acc, acc < usizeW → optsCountU os acc = (acc + optsCount os) % usizeW
  | [], acc, h => by
    simp [optsCountU, optsCount, Nat.mod_eq_of_lt h]
  | o :: os, acc, h => by
    have h2 : (acc + seqCountU o 1) % usizeW < usizeW := Nat.mod_lt _ usizeW_pos
    have ih := optsCountU_eq os ((acc + seqCountU o 1) % usizeW) h2
    have hs := seqCountU_eq o 1 one_lt_usizeW
    simp only [optsCountU, optsCount]
    rw [ih]
    show _ ≡ _ [MOD usizeW]
    calc (acc + seqCountU o 1) % usizeW + optsCount os
        ≡ acc + seqCountU o 1 + optsCount os [MOD usizeW] :=
          Nat.ModEq.add_right _ (Nat.mod_modEq _ _)
      _ ≡ acc + seqCount o + optsCount os [MOD usizeW] := by
          rw [hs, Nat.one_mul]
          exact Nat.ModEq.add_right _ (Nat.ModEq.add_left _ (Nat.mod_modEq _ _))
      _ = acc + (seqCount o + optsCount os) := by ring
theorem seqCountU_eq : ∀ fs acc, acc < usizeW → seqCountU fs acc = acc * seqCount fs % usizeW
  | [], acc, h => by
    simp [seqCountU, seqCount, Nat.mod_eq_of_lt h]
  | f :: fs, acc, h => by
    have h2 : acc * fragCountU f % usizeW < usizeW := Nat.mod_lt _ usizeW_pos
    have ih := seqCountU_eq fs (acc * fragCountU f % usizeW) h2
    have hf := fragCountU_eq f
    simp only [seqCountU, seqCount]
    rw [ih]
    show _ ≡ _ [MOD usizeW]
    calc acc * fragCountU f % usizeW * seqCount fs
        ≡ acc * fragCountU f * seqCount fs [MOD usizeW] :=
          Nat.ModEq.mul_right _ (Nat.mod_modEq _ _)
      _ ≡ acc * fragCount f * seqCount fs [MOD usizeW] := by
          rw [hf]
          exact Nat.ModEq.mul_right _ (Nat.ModEq.mul_left _ (Nat.mod_modEq _ _))
      _ = acc * (fragCount f * seqCount fs) := by ring
end

/-- Pattern::count is the mathematical count reduced modulo 2^64. -/
theorem count_eq_mod (p : Pattern) : p.count = seqCount p.fragments % usizeW := by
  have := seqCountU_eq p.fragments 1 one_lt_usizeW
  simpa [Pattern.count] using this

/-! A successfully built pattern is in the all-cursors-zero initial
state with the done flag cleared. -/

theorem seqInit_append : ∀ a b : List Fragment, seqInit (a ++ b) = (seqInit a && seqInit b)
  | [], b => by simp [seqInit]
  | f :: a, b => by
    simp [seqInit, seqInit_append a b, Bool.and_assoc]

theorem optsInit_append : ∀ a b : List (List Fragment),
    optsInit (a ++ b) = (optsInit a && optsInit b)
  | [], b => by simp [optsInit]
  | o :: a, b => by
    simp [optsInit, optsInit_append a b, Bool.and_assoc]

theorem optsInit_mem : ∀ os, optsInit os = true → ∀ o ∈ os, seqInit o = true
  | o :: os, h, o', hmem => by
    have h' : seqInit o = true ∧ optsInit os = true := by simpa [optsInit] using h
    rcases List.mem_cons.mp hmem with rfl | hmem'
    · exact h'.1
    · exact optsInit_mem os h'.2 o' hmem'

theorem optsInit_set : ∀ os i o', optsInit os = true → seqInit o' = true →
    optsInit (os.set i o') = true
  | [], _, _, h, _ => h
  | o :: os, 0, o', h, h' => by
    have hh : seqInit o = true ∧ optsInit os = true := by simpa [optsInit] using h
    simp [List.set, optsInit, h', hh.2]
  | o :: os, i + 1, o', h, h' => by
    have hh : seqInit o = true ∧ optsInit os = true := by simpa [optsInit] using h
    simp [List.set, optsInit, hh.1, optsInit_set os i o' hh.2 h']

/-- Switch::push preserves the all-initial invariant of a builder
switch when the pushed fragment is initial. -/
theorem bpush_init (sw : BSwitch) (f : Fragment) (sw' : BSwitch)
    (hsw : optsInit sw.options = true) (hf : fragInit f = true)
    (h : bpush sw f = some sw') : optsInit sw'.options = true := by
  simp only [bpush] at h
  generalize hos : (if sw.wc + 1 > sw.options.length then sw.options ++ [[]] else sw.options) = os at h
  have hosInit : optsInit os = true := by
    rw [← hos]
    split
    · simp [optsInit_append, hsw, optsInit, seqInit]
    · exact hsw
  cases hget : os.get? sw.wc with
  | none => rw [hget] at h; cases h
  | some opt =>
    rw [hget] at h
    have hopt : seqInit opt = true := optsInit_mem os hosInit opt (List.get?_mem hget)
    have happ : seqInit (opt ++ [f]) = true := by
      simp [seqInit_append, hopt, seqInit, hf]
    cases h
    exact optsInit_set os sw.wc (opt ++ [f]) hosInit happ

/-- The builder only ever produces fragments in the all-cursors-zero
initial state (every switch it closes gets cursor 0). -/
theorem build_init : ∀ ts stack frags out,
    (∀ sw ∈ stack, optsInit sw.options = true) → seqInit frags = true →
    build ts stack frags = some out → seqInit out = true
  | [], _, frags, out, _, hfr, h => by
    cases h
    exact hfr
  | Token.chunk s :: ts, sw :: stack, frags, out, hstack, hfr, h => by
    simp only [build] at h
    cases hb : bpush sw (.chunk s) with
    | none => rw [hb] at h; cases h
    | some sw' =>
      rw [hb] at h
      refine build_init ts (sw' :: stack) frags out ?_ hfr h
      intro sw'' hmem
      rcases List.mem_cons.mp hmem with rfl | hmem'
      · exact bpush_init sw (.chunk s) sw'' (hstack sw (List.mem_cons_self _ _)) rfl hb
      · exact hstack sw'' (List.mem_cons_of_mem _ hmem')
  | Token.chunk s :: ts, [], frags, out, hstack, hfr, h => by
    simp only [build] at h
    refine build_init ts [] (frags ++ [.chunk s]) out hstack ?_ h
    simp [seqInit_append, hfr, seqInit, fragInit]
  | Token.switchOpen :: ts, stack, frags, out, hstack, hfr, h => by
    simp only [build] at h
    refine build_init ts (⟨[], 0⟩ :: stack) frags out ?_ hfr h
    intro sw'' hmem
    rcases List.mem_cons.mp hmem with rfl | hmem'
    · rfl
    · exact hstack sw'' hmem'
  | Token.switchClose :: ts, sw :: sw2 :: stack, frags, out, hstack, hfr, h => by
    simp only [build] at h
    have hswf : fragInit (.switch sw.options 0) = true := by
      simp [fragInit, hstack sw (List.mem_cons_self _ _)]
    cases hb : bpush sw2 (.switch sw.options 0) with
    | none => rw [hb] at h; cases h
    | some sw2' =>
      rw [hb] at h
      refine build_init ts (sw2' :: stack) frags out ?_ hfr h
      intro sw'' hmem
      rcases List.mem_cons.mp hmem with rfl | hmem'
      · exact bpush_init sw2 (.switch sw.options 0) sw''
          (hstack sw2 (List.mem_cons_of_mem _ (List.mem_cons_self _ _))) hswf hb
      · exact hstack sw'' (List.mem_cons_of_mem _ (List.mem_cons_of_mem _ hmem'))
  | Token.switchClose :: ts, [sw], frags, out, hstack, hfr, h => by
    simp only [build] at h
    refine build_init ts [] (frags ++ [.switch sw.options 0]) out (by intro _ hmem; cases hmem) ?_ h
    simp [seqInit_append, hfr, seqInit, fragInit, hstack sw (List.mem_cons_self _ _)]
  | Token.switchClose :: _, [], _, _, _, _, h => by
    cases h
  | Token.switchNext :: ts, sw :: stack, frags, out, hstack, hfr, h => by
    simp only [build] at h
    refine build_init ts (⟨sw.options, sw.wc + 1⟩ :: stack) frags out ?_ hfr h
    intro sw'' hmem
    rcases List.mem_cons.mp hmem with rfl | hmem'
    · exact hstack sw (List.mem_cons_self _ _)
    · exact hstack sw'' (List.mem_cons_of_mem _ hmem')
  | Token.switchNext :: _, [], _, _, _, _, h => by
    cases h

/-- A pattern returned by from_str is freshly initialized: all cursors
are 0, first is set and done is cleared. -/
theorem fromStr_init (s : String) (p : Pattern) (h : fromStr s = Except.ok (some p)) :
    seqInit p.fragments = true ∧ p.first = true ∧ p.done = false := by
  unfold fromStr at h
  cases hpt : parseTokens s with
  | error e => rw [hpt] at h; cases h
  | ok ts =>
    rw [hpt] at h
    dsimp only at h
    cases hb : build ts [] [] with
    | none => rw [hb] at h; simp at h
    | some fs =>
      rw [hb] at h
      simp only [Option.map] at h
      have hp : p = ⟨fs, true, false⟩ := by
        cases h
        rfl
      subst hp
      exact ⟨build_init ts [] [] fs (by intro _ hmem; cases hmem) rfl hb, rfl, rfl⟩

/-- C2: the pattern built from an empty group drains to exactly one
combination, the empty string, while count() returns 0; in general an
empty switch renders nothing and contributes a multiplicative factor of
0 to count(). -/
theorem empty_switch_renders_once_counts_zero :
    fromStr ("\x7b\x7d") = Except.ok (some pEmptySwitch) ∧
    drainF 2 pEmptySwitch = [("")] ∧
    Pattern.count pEmptySwitch = 0 ∧
    (∀ c, renderFrag (.switch [] c) = ("") ∧ fragCountU (.switch [] c) = 0 ∧
      fragCount (.switch [] c) = 0) := by
  refine ⟨rfl, by decide, by decide, ?_⟩
  intro c
  refine ⟨?_, rfl, rfl⟩
  show renderOpts [] c = ("")
  rfl

/-- C3 (code bug): on the input consisting of a group close directly
followed by a comma at top level, the tokenizer emits SwitchNext
outside any group and the builder's unwrap on the empty switch stack
panics (modelled as Except.ok none), instead of producing a pattern or
a typed error. -/
theorem builder_panics_on_comma_after_toplevel_close :
    parseTokens ("\x7bx\x7d,") =
      Except.ok [Token.switchOpen, Token.chunk ("x"), Token.switchClose, Token.switchNext] ∧
    build [Token.switchOpen, Token.chunk ("x"), Token.switchClose, Token.switchNext] [] [] =
      none ∧
    fromStr ("\x7bx\x7d,") = Except.ok none := by
  exact ⟨rfl, rfl, rfl⟩

/-- C5: the pattern of two chained x,y,z groups drains to exactly nine
combinations in exactly the order the spec lists (the first group
cycling fastest). -/
theorem chained_xyz_drain_order :
    fromStr ("\x7bx,y,z\x7d\x7bx,y,z\x7d") = Except.ok (some pXYZXYZ) ∧
    drainF 10 pXYZXYZ =
      [("xx"), ("yx"), ("zx"), ("xy"), ("yy"), ("zy"), ("xz"), ("yz"), ("zz")] := by
  exact ⟨rfl, by decide⟩

/-- C6 counterexample: a range preceded by another comma-separated
option in the same group does not fail at all; the input expands to the
options a, b, c, d. -/
theorem range_after_option_parses :
    parseTokens ("\x7ba,b..d\x7d") =
      Except.ok [Token.switchOpen, Token.chunk ("a"), Token.switchNext, Token.chunk ("b"),
        Token.switchNext, Token.chunk ("c"), Token.switchNext, Token.chunk ("d"),
        Token.switchClose] := by
  rfl

/-- C7 counterexample: an input that ends in a lone unescaped backslash
tokenizes successfully (the pending escape is silently dropped), rather
than failing with any error. -/
theorem trailing_backslash_accepted :
    parseTokens ("\\") = Except.ok [] ∧
    parseTokens ("abc\\") = Except.ok [Token.chunk ("abc")] := by
  exact ⟨rfl, rfl⟩

/-- C7 amended: the tokenizer's end-of-input step never consults the
escape-pending flag — for every final state it flushes the pending
buffer and either succeeds or reports UnmatchedOpenBrace for a positive
nesting depth, so a pending escape at end of input is silently dropped
and in particular can never produce an unexpected-end error (the two
UnexpectedEndOfInput errors are raised by the range handler while
consuming a range, before end of input is reached, as the two
mid-range inputs show). -/
theorem unexpected_end_only_in_ranges :
    (∀ (esc : Bool) (d : Nat) (x : String) (acc : List Token),
      parseLoop [] esc d x acc =
        if d > 0 then Except.error ParseErr.unmatchedOpenBrace
        else Except.ok (flushChunk x acc)) ∧
    parseTokens ("\\") = Except.ok [] ∧
    parseTokens ("abc\\") = Except.ok [Token.chunk ("abc")] ∧
    parseTokens ("\x7ba..") = Except.error ParseErr.unexpectedEndRange ∧
    parseTokens ("\x7ba..\\") = Except.error ParseErr.unexpectedEndEscape := by
  refine ⟨?_, rfl, rfl, rfl, rfl⟩
  intro esc d x acc
  cases esc <;> rfl

set_option maxRecDepth 4000 in
/-- C8 (code bug): the nesting counter is a u8, so an input of exactly
256 unclosed opening braces wraps the counter back to 0 and
tokenization succeeds with no error at all (under release-build
wrapping semantics; a debug build panics on the overflow), instead of
failing with UnmatchedOpenBrace as it does at 255 or 257 unclosed
braces. -/
theorem open_braces_u8_wraparound :
    parseTokens (String.mk (List.replicate 256 '\x7b')) =
      Except.ok (List.replicate 256 Token.switchOpen) ∧
    parseTokens (String.mk (List.replicate 255 '\x7b')) =
      Except.error ParseErr.unmatchedOpenBrace ∧
    parseTokens (String.mk (List.replicate 257 '\x7b')) =
      Except.error ParseErr.unmatchedOpenBrace := by
  refine ⟨by decide, by decide, by decide⟩

/-- C6 amended: whenever the character immediately after a range's end
bound is anything other than the closing brace, parsing fails with the
shared range error (proved for every such character, in particular for
a comma starting a further option); the same shared error is also
raised by the single-byte bound checks (e.g. a two-character start
bound), so it is not exclusive to this check; and comma-separated
options before the range in the same group are accepted, simply
preceding the expanded range options. -/
theorem range_requires_immediate_close :
    (∀ c : Char, c ≠ '\x7d' →
      parseTokens (String.mk ['\x7b', 'a', '.', '.', 'b', c, '\x7d']) =
        Except.error ParseErr.rangeSingleAscii) ∧
    parseTokens ("\x7ba..d,x\x7d") = Except.error ParseErr.rangeSingleAscii ∧
    parseTokens ("\x7b00..9\x7d") = Except.error ParseErr.rangeSingleAscii ∧
    parseTokens ("\x7ba,b..d\x7d") =
      Except.ok [Token.switchOpen, Token.chunk ("a"), Token.switchNext, Token.chunk ("b"),
        Token.switchNext, Token.chunk ("c"), Token.switchNext, Token.chunk ("d"),
        Token.switchClose] := by
  refine ⟨?_, rfl, rfl, rfl⟩
  intro c h
  have step : parseTokens (String.mk ['\x7b', 'a', '.', '.', 'b', c, '\x7d']) =
      (if some c ≠ some ('\x7d' : Char) then Except.error ParseErr.rangeSingleAscii
       else parseLoop [c, '\x7d'] false 1 ("") (Token.switchOpen :: rangeToks 97 98)) := rfl
  rw [step, if_pos (by simpa using h)]

/-- C6 amended witness: the trailing character x after the range end
bound makes parsing fail. -/
theorem range_requires_immediate_close_witness :
    parseTokens (String.mk ['\x7b', 'a', '.', '.', 'b', 'x', '\x7d']) =
      Except.error ParseErr.rangeSingleAscii :=
  range_requires_immediate_close.1 'x' (by decide)

/-- C1 counterexample: the empty-group pattern parses and builds
successfully, draining it yields one combination (the empty string),
but count() returns 0, so count() does not equal the number of items
next() yields. -/
theorem count_drain_mismatch_on_empty_group :
    fromStr ("\x7b\x7d") = Except.ok (some pEmptySwitch) ∧
    (drainF 2 pEmptySwitch).length = 1 ∧
    Pattern.count pEmptySwitch = 0 ∧
    (drainF 2 pEmptySwitch).length ≠ Pattern.count pEmptySwitch := by
  refine ⟨rfl, by decide, by decide, by decide⟩

/-- C1 amended: for every pattern string that parses and builds
successfully into a pattern all of whose switches have at least one
option, and whose mathematical combination total fits in usize,
draining the enumerator (with any sufficient fuel) yields exactly
count() items. -/
theorem count_eq_drain_length (s : String) (p : Pattern) (n : Nat)
    (hp : fromStr s = Except.ok (some p))
    (hne : seqNE p.fragments = true)
    (hn : seqCount p.fragments ≤ n)
    (hw : seqCount p.fragments < usizeW) :
    (drainF n p).length = p.count := by
  obtain ⟨hini, hfst, hdone⟩ := fromStr_init s p hp
  have hcm := count_eq_mod p
  obtain ⟨fs, fst, dn⟩ := p
  simp only at hini hne hn hw hdone hcm ⊢
  subst hdone
  have hval := seqInit_valid fs hini hne
  have hr0 := seqInit_rank fs hini
  have hlen := drainF_len n fs fst hne hval (by omega)
  rw [hlen, hcm, Nat.mod_eq_of_lt hw]
  omega

/-- C1 amended witness at the concrete input abc followed by the
three-option group x,y,z. -/
theorem count_eq_drain_length_witness :
    (drainF 3 pABCXYZ).length = Pattern.count pABCXYZ :=
  count_eq_drain_length ("abc\x7bx,y,z\x7d") pABCXYZ 3 rfl (by decide) (by decide) (by decide)

/-- C4 counterexample: advancing the freshly built two-switch pattern
of x,y and a,b once moves the first switch's cursor from 0 to 1 and
leaves the last switch's cursor at 0, and the drain order is
xa, ya, xb, yb — the second combination is ya, not the xb that a
last-switch-cycles-fastest order would produce. -/
theorem later_switch_not_fastest :
    bumpSeq pXYAB.fragments =
      ([Fragment.switch optsXY 1, Fragment.switch optsAB 0], false) ∧
    drainF 5 pXYAB = [("xa"), ("ya"), ("xb"), ("yb")] ∧
    drainF 5 pXYAB ≠ [("xa"), ("xb"), ("ya"), ("yb")] := by
  refine ⟨rfl, by decide, by decide⟩

/-- C4 amended: advance walks the fragment sequence left to right and
stops at the first switch that reports no carry, leaving every later
fragment untouched: the leftmost (first-declared) switch cycles
fastest, and a later switch's cursor changes only when all earlier
fragments carry out, as the drain order of the x,y times a,b pattern
shows. -/
theorem bump_leftmost_fastest :
    (∀ f fs, (bumpFrag f).2 = false → bumpSeq (f :: fs) = ((bumpFrag f).1 :: fs, false)) ∧
    fromStr ("\x7bx,y\x7d\x7ba,b\x7d") = Except.ok (some pXYAB) ∧
    drainF 5 pXYAB = [("xa"), ("ya"), ("xb"), ("yb")] := by
  refine ⟨?_, rfl, by decide⟩
  intro f fs h
  obtain ⟨f', b, hr⟩ : ∃ f' b, bumpFrag f = (f', b) := ⟨_, _, rfl⟩
  rw [hr] at h
  dsimp only at h
  subst h
  simp [bumpSeq, hr]

/-- C4 amended witness: a switch that has not yet carried leaves the
fragments after it untouched. -/
theorem bump_leftmost_fastest_witness :
    bumpSeq [Fragment.switch optsAB 0, Fragment.chunk ("z")] =
      ((bumpFrag (Fragment.switch optsAB 0)).1 :: [Fragment.chunk ("z")], false) :=
  bump_leftmost_fastest.1 (Fragment.switch optsAB 0) [Fragment.chunk ("z")] rfl

/-- C9 counterexample: the only rendering operation the source offers
is next(), and it is fused with advancing: on the x,y pattern two
consecutive calls return different texts, and the first call already
moves the switch cursor, contradicting render-twice-same-text and
no-state-mutation. -/
theorem next_advances_state :
    (Pattern.next pXY).1 = some ("x") ∧
    (Pattern.next (Pattern.next pXY).2).1 = some ("y") ∧
    some ("x") ≠ some ("y") ∧
    (Pattern.next pXY).2.fragments.map fragCtr ≠ pXY.fragments.map fragCtr := by
  refine ⟨rfl, rfl, by decide, by decide⟩

/-- C9 amended: the text next() emits is the pure render of the current
state (so rendering itself is deterministic and mutation-free), but
next() always advances afterwards, mutating cursor state and the done
flag; only an exhausted pattern's next() leaves the state untouched. -/
theorem next_is_render_then_bump :
    (∀ p : Pattern, p.done = false →
      Pattern.next p = (some (renderSeq p.fragments),
        ⟨(bumpSeq p.fragments).1, p.first, (bumpSeq p.fragments).2⟩)) ∧
    (∀ p : Pattern, p.done = true → Pattern.next p = (none, p)) := by
  constructor
  · intro p h
    obtain ⟨fs', b, hb⟩ : ∃ fs' b, bumpSeq p.fragments = (fs', b) := ⟨_, _, rfl⟩
    simp [Pattern.next, h, hb]
  · intro p h
    simp [Pattern.next, h]

/-- C9 amended witness at the x,y pattern. -/
theorem next_is_render_then_bump_witness :
    Pattern.next pXY = (some (renderSeq pXY.fragments),
      ⟨(bumpSeq pXY.fragments).1, pXY.first, (bumpSeq pXY.fragments).2⟩) :=
  next_is_render_then_bump.1 pXY rfl

set_option maxRecDepth 4000 in
/-- C10: count() computes with wrapping usize (64-bit) arithmetic: the
64-fold chained binary group pattern denotes mathematically 2^64
combinations, but count() returns 0, the total reduced modulo 2^64;
in general count() equals the mathematical sum-of-products formula
reduced modulo 2^64. -/
theorem count_wraps_usize :
    fromStr s64 = Except.ok (some p64) ∧
    seqCount p64.fragments = 2 ^ 64 ∧
    Pattern.count p64 = 0 ∧
    Pattern.count p64 ≠ seqCount p64.fragments ∧
    (∀ q : Pattern, q.count = seqCount q.fragments % usizeW) := by
  refine ⟨rfl, by decide, by decide, by decide, count_eq_mod⟩

end Progpick
